import Mathlib

/-!
Verification development for the qr_trees iLQR solver.

The embedding covers, from `src/ilqr/ilqr.cc` (tree iLQR over homogeneous
"extended state" coordinates), the functions `compute_value_matrix` (with
its `IS_EQUAL` assertions, which throw on failure — so the embedding
returns `Except`), `compute_control_policy`, the accumulation loop of
`backup_to_parents` (with Eigen's dimension assertion on `operator+=`)
and `bellman_tree_backup`; from `src/ilqr/ilqr_node.hh` the node record
and `set_probability`; from `src/templated/iLQR_hindsight.hh` the solver
constructor.  Matrices are embedded as `Matrix` over `ℚ` (reals in exact
arithmetic); the extended state index of the tree solver, of size
`state_dim + 1`, is `Fin n ⊕ Unit` so that the
`topRightCorner`/`bottomLeftCorner`/`bottomRightCorner` block writes of
the source become the `Sum.inr` border of the index type.
-/

open Matrix

/-- Extended ("homogeneous") state index of the tree solver: the first `n`
coordinates are the state, the `Sum.inr` coordinate is the constant 1. -/
abbrev XH (n : ℕ) := Fin n ⊕ Unit

/-- Executable matrix inverse over `ℚ` (`Eigen`'s `.inverse()` on a square
matrix): the classical adjugate formula.  Agrees with Mathlib's `A⁻¹`. -/
def qInv {k : ℕ} (A : Matrix (Fin k) (Fin k) ℚ) : Matrix (Fin k) (Fin k) ℚ :=
  (A.det)⁻¹ • A.adjugate

theorem qInv_eq_inv {k : ℕ} (A : Matrix (Fin k) (Fin k) ℚ) : qInv A = A⁻¹ := by
  rw [qInv, Matrix.inv_def, Ring.inverse_eq_inv]

theorem qInv_fin_one (A : Matrix (Fin 1) (Fin 1) ℚ) : qInv A = (A 0 0)⁻¹ • 1 := by
  rw [qInv, Matrix.adjugate_fin_one, Matrix.det_fin_one]

/-- The plan node of the tree solver (`PlanNode`).  Its class declaration
lives in `ilqr/ilqr.hh`, which is not part of the sources; the record below
is reconstructed from every use in `src/ilqr/ilqr.cc`: dynamics expansion
`dynamics_.A`, `dynamics_.B`, cost expansion `cost_.Q`, `cost_.P`,
`cost_.R`, `cost_.b_u`, control policy `K_` (over the extended state, per
the `[dim(u)] x [dim(x) + 1]` comment of `ilqr_node.hh`), `k_`, value
matrix `V_` and branch probability `probability_`.  All matrices live at
the extended dimension required by the `IS_EQUAL(..., state_dim_ + 1)`
assertions of `compute_value_matrix`. -/
structure PlanNode (n m : ℕ) where
  A : Matrix (XH n) (XH n) ℚ
  B : Matrix (XH n) (Fin m) ℚ
  Q : Matrix (XH n) (XH n) ℚ
  P : Matrix (XH n) (Fin m) ℚ
  R : Matrix (Fin m) (Fin m) ℚ
  b_u : Matrix (Fin m) (Fin 1) ℚ
  K : Matrix (Fin m) (XH n) ℚ
  k : Matrix (Fin m) (Fin 1) ℚ
  V : Matrix (XH n) (XH n) ℚ
  probability : ℚ

/-- The three border writes of `compute_value_matrix`:
`Vt.topRightCorner(state_dim_, 1) += linear_term.topRows(state_dim_)`,
`Vt.bottomLeftCorner(1, state_dim_) += linear_term.topRows(state_dim_).transpose()`,
`Vt.bottomRightCorner(1, 1) += constant_term`, packaged as one additive
update (zero on the top-left block). -/
def borderAdd {n : ℕ} (L : Matrix (XH n) (Fin 1) ℚ) (c : Matrix (Fin 1) (Fin 1) ℚ) :
    Matrix (XH n) (XH n) ℚ :=
  fromBlocks 0 (Matrix.of fun i _ => L (Sum.inl i) 0)
    (Matrix.of fun _ j => L (Sum.inl j) 0) (Matrix.of fun _ _ => c 0 0)

/-- Failure modes of the tree solver's backup path.  `isEqualFailed`
models an `IS_EQUAL` debug assertion of `ilqr.cc` failing (the macro
family throws on failure, as the comment at ilqr.cc:72 notes for
`IS_ALMOST_EQUAL`); `sizeMismatch` models Eigen's runtime dimension
assertion on `operator+=` between matrices of different sizes. -/
inductive BackupAbort where
  | isEqualFailed
  | sizeMismatch
deriving DecidableEq

/-- The matrix value built by `iLQRTree::compute_value_matrix`
(src/ilqr/ilqr.cc:130-157), the assertions aside: form
`cntrl_cross_term = P + Aᵀ Vt1 B`,
`quadratic_term = Q + Aᵀ Vt1 A + cntrl_cross_term * K`,
`linear_term = cntrl_cross_term * k`, `constant_term = b_uᵀ k`, and add the
linear and constant terms onto the borders of the quadratic term.  This is
what the function returns when its assertions pass (see
`compute_value_matrix`, which they do only for `state_dim = 0`). -/
def compute_value_matrix_core {n m : ℕ} (node : PlanNode n m)
    (Vt1 : Matrix (XH n) (XH n) ℚ) : Matrix (XH n) (XH n) ℚ :=
  let cntrl_cross_term := node.P + node.A.transpose * Vt1 * node.B
  let quadratic_term := node.Q + node.A.transpose * Vt1 * node.A + cntrl_cross_term * node.K
  let linear_term := cntrl_cross_term * node.k
  let constant_term := node.b_u.transpose * node.k
  quadratic_term + borderAdd linear_term constant_term

/-- `iLQRTree::compute_value_matrix` (src/ilqr/ilqr.cc:127-158) with its
four `IS_EQUAL` assertions.  `quadratic_term` is `(state_dim+1) ×
(state_dim+1)` (its row/column count at our types is `n + 1`), the
comparands are `state_dim_ + 1` at lines 143, 144 and 147 and the literal
`1` at line 148 — so the line-148 check `quadratic_term.cols() == 1`
contradicts the line-144 check `quadratic_term.cols() == state_dim_ + 1`
whenever `state_dim ≥ 1`, and the function then throws instead of
returning.  (Lines 147-148 evidently meant to check `linear_term`, whose
column count is 1.) -/
def compute_value_matrix {n m : ℕ} (node : PlanNode n m)
    (Vt1 : Matrix (XH n) (XH n) ℚ) :
    Except BackupAbort (Matrix (XH n) (XH n) ℚ) :=
  let cntrl_cross_term := node.P + node.A.transpose * Vt1 * node.B
  let quadratic_term := node.Q + node.A.transpose * Vt1 * node.A + cntrl_cross_term * node.K
  -- IS_EQUAL(quadratic_term.rows(), state_dim_ + 1)  (ilqr.cc:143)
  if n + 1 = n + 1 then
    -- IS_EQUAL(quadratic_term.cols(), state_dim_ + 1)  (ilqr.cc:144)
    if n + 1 = n + 1 then
      let linear_term := cntrl_cross_term * node.k
      -- IS_EQUAL(quadratic_term.rows(), state_dim_ + 1)  (ilqr.cc:147)
      if n + 1 = n + 1 then
        -- IS_EQUAL(quadratic_term.cols(), 1)  (ilqr.cc:148)
        if n + 1 = 1 then
          let constant_term := node.b_u.transpose * node.k
          Except.ok (quadratic_term + borderAdd linear_term constant_term)
        else Except.error BackupAbort.isEqualFailed
      else Except.error BackupAbort.isEqualFailed
    else Except.error BackupAbort.isEqualFailed
  else Except.error BackupAbort.isEqualFailed

/-- `compute_value_matrix` in closed form: the value of
`compute_value_matrix_core` is returned only in the zero-dimensional
state case; for every `state_dim ≥ 1` the line-148 assertion fails. -/
theorem compute_value_matrix_eq {n m : ℕ} (node : PlanNode n m)
    (Vt1 : Matrix (XH n) (XH n) ℚ) :
    compute_value_matrix node Vt1 =
      if n = 0 then Except.ok (compute_value_matrix_core node Vt1)
      else Except.error BackupAbort.isEqualFailed := by
  rcases n with _ | n <;>
    simp [compute_value_matrix, compute_value_matrix_core]

/-- `iLQRTree::compute_control_policy` (src/ilqr/ilqr.cc:160-173):
`inv_cntrl_term = (R + Bᵀ Vt1 B).inverse()`,
`K = -1.0 * inv_cntrl_term * (Pᵀ + Bᵀ Vt1 A)`,
`k = -1.0 * inv_cntrl_term * b_u`. -/
def compute_control_policy {n m : ℕ} (node : PlanNode n m)
    (Vt1 : Matrix (XH n) (XH n) ℚ) :
    Matrix (Fin m) (XH n) ℚ × Matrix (Fin m) (Fin 1) ℚ :=
  let inv_cntrl_term := qInv (node.R + node.B.transpose * Vt1 * node.B)
  ((-1 : ℚ) • (inv_cntrl_term * (node.P.transpose + node.B.transpose * Vt1 * node.A)),
   (-1 : ℚ) • (inv_cntrl_term * node.b_u))

/-- The per-parent accumulation of `iLQRTree::backup_to_parents`
(src/ilqr/ilqr.cc:106-122): the accumulator is
`Eigen::MatrixXd Vt = Eigen::MatrixXd::Zero(state_dim_, state_dim_)`
(line 110) — a `state_dim × state_dim` matrix; for each child,
`Vt_temp = compute_value_matrix(parent, child.V_)` (which throws, or for
`state_dim = 0` returns a `(state_dim+1) × (state_dim+1)` matrix), then
`Vt += p * Vt_temp` (line 118).  Eigen's `operator+=` requires equal
dimensions and `state_dim ≠ state_dim + 1`, so the addition aborts on
Eigen's dimension assertion; the branch that would perform it is guarded
by exactly that (never satisfiable) equality, and its body is vacuous.
Children are carried as (probability, value-matrix) pairs. -/
def backup_to_parents_run {n m : ℕ} (parent : PlanNode n m)
    (children : List (ℚ × Matrix (XH n) (XH n) ℚ)) :
    Except BackupAbort (Matrix (Fin n) (Fin n) ℚ) :=
  children.foldlM
    (fun acc c => do
      let vt_temp ← compute_value_matrix parent c.2
      if hn : n = n + 1 then
        -- the sizes can never match, so this arm is unreachable; were it
        -- reached, 'acc + p * vt_temp' would be the Eigen addition
        Except.ok (absurd hn (Nat.ne_of_lt (Nat.lt_succ_self n)))
      else Except.error BackupAbort.sizeMismatch)
    (0 : Matrix (Fin n) (Fin n) ℚ)

/-- `iLQRNode` of `src/ilqr/ilqr_node.hh`: Taylor expansion points `x_`,
`u_`, branch probability `probability_`, quadratic value `J_` stored as
`(V, G, W)` with `J(x) = ½ xᵀVx + Gx + W`, extended-state feedback gain
`K_ : [dim(u)] × [dim(x)+1]`, feed-forward `k_`, the original expansion
points, and the dynamics and cost closures. -/
structure iLQRNode (n m : ℕ) where
  dynamics_func : (Fin n → ℚ) → (Fin m → ℚ) → (Fin n → ℚ)
  cost_func : (Fin n → ℚ) → (Fin m → ℚ) → ℚ
  x : Fin n → ℚ
  u : Fin m → ℚ
  probability : ℚ
  V : Matrix (Fin n) (Fin n) ℚ
  G : Matrix (Fin 1) (Fin n) ℚ
  W : ℚ
  K : Matrix (Fin m) (XH n) ℚ
  k : Matrix (Fin m) (Fin 1) ℚ
  orig_xstar : Fin n → ℚ
  orig_ustar : Fin m → ℚ

/-- `iLQRNode::set_probability` (src/ilqr/ilqr_node.hh:51):
`void set_probability(double p) { probability_ = p; }` — an unconditional
field write. -/
def iLQRNode.set_probability {n m : ℕ} (node : iLQRNode n m) (p : ℚ) : iLQRNode n m :=
  { node with probability := p }

/-- One hindsight split of the templated solver
(`src/templated/iLQR_hindsight.hh:27-45`): a dynamics closure, running and
final cost closures, and a branch probability (default 0). -/
structure HindsightSplit (n m : ℕ) where
  dynamics : (Fin n → ℚ) → (Fin m → ℚ) → (Fin n → ℚ)
  final_cost : (Fin n → ℚ) → ℚ
  cost : (Fin n → ℚ) → (Fin m → ℚ) → ℕ → ℚ
  probability : ℚ := 0

/-- Failure modes of the `iLQRHindsightSolver` constructor.  `emptySplits`
models the `IS_GREATER(splits.size(), 0)` assertion failing, `badPrior`
models the `IS_ALMOST_EQUAL(total_prob, 1.0, 1e-3)` assertion failing (the
spec's `BadPrior`). -/
inductive ConstructError where
  | emptySplits
  | badPrior
deriving DecidableEq

/-- `iLQRHindsightSolver::iLQRHindsightSolver`
(src/templated/iLQR_hindsight.hh:72-83): assert `splits.size() > 0`, sum
the branch probabilities, and assert the total is within `1e-3` of 1.
The constructor copies the splits into the branches and performs no other
check; the embedding returns only the success/failure outcome.  The
semantics of the `IS_ALMOST_EQUAL` macro (its definition, in
`utils/debug_utils.hh`, is not among the sources) is modelled from the
spec's "sum to 1 ± 10⁻³" as `|total − 1| ≤ 10⁻³`. -/
def iLQRHindsightSolver_construct {n m : ℕ} (splits : List (HindsightSplit n m)) :
    Except ConstructError Unit :=
  if 0 < splits.length then
    let total_prob := (splits.map fun s => s.probability).sum
    if |total_prob - 1| ≤ 1 / 1000 then Except.ok () else Except.error ConstructError.badPrior
  else Except.error ConstructError.emptySplits

/-- The rollout tree of the tree solver (`data::Tree<PlanNode>`; the
container template is not among the sources and is modelled as a rose
tree, the minimal structure supporting `root`, `add_child` and
`leaf_nodes`). -/
inductive PlanTree (n m : ℕ) where
  | node (item : PlanNode n m) (children : List (PlanTree n m))

/-- `leaf_nodes` of the tree container: the items of all childless
descendants, a pure query. -/
def PlanTree.leaf_nodes {n m : ℕ} : PlanTree n m → List (PlanNode n m)
  | .node it [] => [it]
  | .node _ (c :: cs) =>
      (c :: cs).attach.flatMap fun child => child.1.leaf_nodes
termination_by t => sizeOf t
decreasing_by
  have := List.sizeOf_lt_of_mem child.2
  simp only [PlanTree.node.sizeOf_spec]
  omega

/-- `iLQRTree::bellman_tree_backup` (src/ilqr/ilqr.cc:89-92).  Its entire
body is `auto all_children = tree_.leaf_nodes();` — the leaf list is
computed into a local and discarded, and nothing is written. -/
def bellman_tree_backup {n m : ℕ} (tree : PlanTree n m) : PlanTree n m :=
  let _all_children := tree.leaf_nodes
  tree

/-- Embeds a plain `n × m` input matrix into the extended state: dynamics
do not write the constant coordinate, so the extended `B` of the tree
solver carries a zero bottom row. -/
def extendB {n m : ℕ} (Bp : Matrix (Fin n) (Fin m) ℚ) : Matrix (XH n) (Fin m) ℚ :=
  Matrix.of fun i j =>
    match i with
    | Sum.inl r => Bp r j
    | Sum.inr _ => 0

/-- The homogeneous form of a quadratic value `J(x) = ½ xᵀVx + Gx + W`
over the extended state `[x; 1]`: `½ [x;1]ᵀ H [x;1] = J(x)` with `H`
carrying `V` on the state block, `Gᵀ`/`G` on the borders and `2W` in the
corner. -/
def homogValue {n : ℕ} (V : Matrix (Fin n) (Fin n) ℚ) (G : Matrix (Fin 1) (Fin n) ℚ)
    (W : ℚ) : Matrix (XH n) (XH n) ℚ :=
  fromBlocks V (Matrix.of fun i _ => G 0 i) (Matrix.of fun _ j => G 0 j)
    (Matrix.of fun _ _ => 2 * W)

/-- Modelled from the spec: control-Hessian failure of §4.3/§7; raised
when the Cholesky factorization of `Q_uu + μI` fails. -/
inductive ControlHessianError where
  | nonPSDControlHessian
deriving DecidableEq

/-- Positivity of every leading principal minor — Sylvester's criterion,
the exact condition under which the Cholesky factorization of a symmetric
matrix succeeds. -/
def leadingMinorsPos {k : ℕ} (M : Matrix (Fin k) (Fin k) ℚ) : Prop :=
  ∀ j : Fin k, 0 < (M.submatrix (Fin.castLE j.isLt) (Fin.castLE j.isLt)).det

instance {k : ℕ} (M : Matrix (Fin k) (Fin k) ℚ) : Decidable (leadingMinorsPos M) := by
  unfold leadingMinorsPos; infer_instance

/-- Modelled from the spec: the §4.3 control solve as specified — "With
damping μ the effective Q_uu is Q_uu + μI.  Solve K = −Q_uu⁻¹ Q_ux,
k = −Q_uu⁻¹ Q_u by Cholesky of Q_uu (fails with `NonPSDControlHessian` if
Cholesky fails)" with `Q_ux = Pᵀ + BᵀV_{t+1}A` and `Q_u = b_u + BᵀG_{t+1}ᵀ`.
The implementation this sentence was written from
(`templated/iLQR_hindsight_impl.hh`) is not among the sources. -/
def cholesky_control_gains {n m : ℕ} (mu : ℚ) (node : PlanNode n m)
    (Vt1 : Matrix (XH n) (XH n) ℚ) :
    Except ControlHessianError (Matrix (Fin m) (XH n) ℚ × Matrix (Fin m) (Fin 1) ℚ) :=
  let Quu := node.R + node.B.transpose * Vt1 * node.B + mu • (1 : Matrix (Fin m) (Fin m) ℚ)
  if leadingMinorsPos Quu then
    Except.ok ((-1 : ℚ) • (qInv Quu * (node.P.transpose + node.B.transpose * Vt1 * node.A)),
      (-1 : ℚ) • (qInv Quu * node.b_u))
  else Except.error ControlHessianError.nonPSDControlHessian

/-- The per-branch data of the templated hindsight solver
(`HindsightBranch`, src/templated/iLQR_hindsight.hh:48-60): feedback
gains `Ks`, feed-forwards `ks`, and linearization points `xhat`, `uhat`. -/
structure HindsightBranch (n m : ℕ) where
  Ks : List (Matrix (Fin m) (Fin n) ℚ)
  ks : List (Fin m → ℚ)
  xhat : List (Fin n → ℚ)
  uhat : List (Fin m → ℚ)

/-- Modelled from the spec: `compute_control_stepsize` of the templated
solver (declared at src/templated/iLQR_hindsight.hh:85-89; its body, in
`iLQR_hindsight_impl.hh`, is not among the sources).  The spec's feedback
law at node `t` is `u_t(x) = û_t + α·k_t + K_t(x − x̂_t)`.  Out-of-range
timesteps take zero gains/points (the theorems only ever use `t < T`). -/
def compute_control_stepsize {n m : ℕ} (br : HindsightBranch n m)
    (xt : Fin n → ℚ) (t : ℕ) (alpha : ℚ) : Fin m → ℚ :=
  (br.uhat.getD t 0) + alpha • (br.ks.getD t 0) +
    (br.Ks.getD t 0).mulVec (xt - br.xhat.getD t 0)

/-- Modelled from the spec: the regular (full-step) feedback law, the
`iLQRNode::compute_control(xt)` overload of src/ilqr/ilqr_node.hh:44
("Computes a feedback control from state xt", no step-size argument; its
body is not among the sources): `u(x) = û + k + K(x − x̂)`. -/
def compute_control_regular {n m : ℕ} (br : HindsightBranch n m)
    (xt : Fin n → ℚ) (t : ℕ) : Fin m → ℚ :=
  (br.uhat.getD t 0) + (br.ks.getD t 0) +
    (br.Ks.getD t 0).mulVec (xt - br.xhat.getD t 0)

theorem exists_two_pow_gt (q : ℚ) : ∃ j : ℕ, q < 2 ^ j := by
  obtain ⟨j, hj⟩ := exists_nat_gt q
  refine ⟨j, hj.trans ?_⟩
  exact_mod_cast Nat.lt_two_pow j

/-- Number of step sizes tried by the backtracking line search: the spec's
halving sequence `α₀, α₀/2, α₀/4, …` stops before dropping below
`α_min = 2⁻¹⁰`, so the count is the least `j` with `α₀/2^j < 2⁻¹⁰`,
i.e. with `1024·α₀ < 2^j`. -/
def numHalvings (a0 : ℚ) : ℕ := Nat.find (exists_two_pow_gt (1024 * a0))

/-- Modelled from the spec: the line-search step-size schedule
`α ∈ {α₀, α₀/2, α₀/4, …, α_min = 2⁻¹⁰}` of §4.5 step 3. -/
def alphaSeq (a0 : ℚ) : List ℚ :=
  (List.range (numHalvings a0)).map fun j => a0 / 2 ^ j

/-- Modelled from the spec: "Accept the first α with J̄_α < J̄" — scan the
schedule and return the first step size whose candidate cost beats the
current cost. -/
def lineSearchFirst (candidateCost : ℚ → ℚ) (Jbar : ℚ) : List ℚ → Option ℚ
  | [] => none
  | a :: rest =>
      if candidateCost a < Jbar then some a else lineSearchFirst candidateCost Jbar rest

/-- Terminal outcomes of one damped line-search round of `solve`. -/
inductive LineSearchOutcome where
  | accepted (mu alpha : ℚ)
  | stuckAtLocalMin (mu : ℚ)
deriving DecidableEq

/-- Modelled from the spec: the damping escalation of §4.5 step 3c —
"multiply μ by 10 (if μ = 0, set μ = 10⁻⁶)". -/
def escalateMu (mu : ℚ) : ℚ := if mu = 0 then 1 / 1000000 else 10 * mu

/-- Modelled from the spec: the line-search/damping retry loop of `solve`
(§4.5 steps 2-3; the body of `iLQRHindsightSolver::solve`, in
`iLQR_hindsight_impl.hh`, is not among the sources).  `candidateCost mu α`
is the expected cost J̄_α of the forward simulation under damping `mu`
(re-deriving gains for each damping level); closures producing finite
costs are modelled by `candidateCost` being a total function into `ℚ`.
The loop is written with explicit fuel: `none` means the fuel ran out, and
the termination claim is that some finite fuel always suffices. -/
def dampedRetryLoop (candidateCost : ℚ → ℚ → ℚ) (Jbar a0 : ℚ) :
    ℕ → ℚ → Option LineSearchOutcome
  | 0, _ => none
  | fuel + 1, mu =>
      match lineSearchFirst (candidateCost mu) Jbar (alphaSeq a0) with
      | some a => some (LineSearchOutcome.accepted mu a)
      | none =>
          let mu2 := escalateMu mu
          if 1000000 < mu2 then some (LineSearchOutcome.stuckAtLocalMin mu2)
          else dampedRetryLoop candidateCost Jbar a0 fuel mu2

/-- The property claimed of every terminal outcome of the retry loop:
either some step size of the schedule (hence `≥ 2⁻¹⁰`) was accepted with a
strict cost decrease, or the loop ended stuck with the damping beyond
`10⁶`. -/
def GoodOutcome (candidateCost : ℚ → ℚ → ℚ) (Jbar a0 : ℚ)
    (out : LineSearchOutcome) : Prop :=
  (∃ mu a, out = LineSearchOutcome.accepted mu a ∧ a ∈ alphaSeq a0 ∧
      candidateCost mu a < Jbar ∧ 1 / 1024 ≤ a) ∨
  (∃ mu, out = LineSearchOutcome.stuckAtLocalMin mu ∧ 1000000 < mu)

/-- C9: `iLQRTree::bellman_tree_backup` leaves the entire plan tree
unchanged — its body computes the leaf list into a discarded local and
writes nothing, so every node's value, gains, expansion points and
probabilities are identical before and after the call. -/
theorem bellman_tree_backup_is_identity {n m : ℕ} (tree : PlanTree n m) :
    bellman_tree_backup tree = tree := rfl

/-- C10: constructing an `iLQRHindsightSolver` with an empty splits vector
fails on the `IS_GREATER(splits.size(), 0)` size assertion, before the
probability-sum check; for every non-empty splits vector the size
assertion passes and the outcome is decided by the probability-sum
check alone. -/
theorem construct_empty_fails_before_prior_check (n m : ℕ) :
    iLQRHindsightSolver_construct ([] : List (HindsightSplit n m)) =
      Except.error ConstructError.emptySplits ∧
    ∀ (s : HindsightSplit n m) (ss : List (HindsightSplit n m)),
      iLQRHindsightSolver_construct (s :: ss) =
        if |((s :: ss).map fun t => t.probability).sum - 1| ≤ 1 / 1000
          then Except.ok () else Except.error ConstructError.badPrior := by
  constructor
  · simp [iLQRHindsightSolver_construct]
  · intro s ss
    simp [iLQRHindsightSolver_construct]

/-- C4 counterexample: the constructor checks only that the probabilities
sum to 1 within `1e-3`; it never checks signs.  The splits with
probabilities `3/2` and `-1/2` sum to 1 exactly, contain a negative
probability, and construction nevertheless succeeds — where the claim
requires failure. -/
theorem construct_accepts_negative_probability :
    iLQRHindsightSolver_construct
        [({ dynamics := fun x _ => x, final_cost := fun _ => 0, cost := fun _ _ _ => 0,
            probability := 3 / 2 } : HindsightSplit 1 1),
         { dynamics := fun x _ => x, final_cost := fun _ => 0, cost := fun _ _ _ => 0,
            probability := -(1 / 2) }] = Except.ok () ∧
    (-(1 / 2) : ℚ) < 0 := by
  constructor
  · simp [iLQRHindsightSolver_construct]
    norm_num [abs_le]
  · norm_num

/-- C4 amended: construction succeeds exactly when the splits vector is
non-empty and the probabilities sum to 1 within tolerance `1e-3`; no
negativity condition is part of the characterization. -/
theorem construct_ok_iff {n m : ℕ} (splits : List (HindsightSplit n m)) :
    iLQRHindsightSolver_construct splits = Except.ok () ↔
      splits ≠ [] ∧ |(splits.map fun s => s.probability).sum - 1| ≤ 1 / 1000 := by
  rcases splits with _ | ⟨s, ss⟩
  · simp [iLQRHindsightSolver_construct]
  · have hlen : (0 : ℕ) < (s :: ss).length := Nat.succ_pos _
    simp only [iLQRHindsightSolver_construct, if_pos hlen]
    by_cases h : |((s :: ss).map fun t => t.probability).sum - 1| ≤ 1 / 1000
    · rw [if_pos h]
      simp only [List.map_cons, List.sum_cons] at h
      simpa using h
    · rw [if_neg h]
      simp only [List.map_cons, List.sum_cons] at h
      simpa using h

/-- C6 counterexample: `iLQRNode::set_probability` stores any value
unconditionally — writing `-1` into a node whose probability was a valid
distribution value leaves a negative stored probability, violating the
claimed postcondition `∀ i, p_i ≥ 0`. -/
theorem set_probability_stores_negative :
    (({ dynamics_func := fun x _ => x, cost_func := fun _ _ => 0, x := 0, u := 0,
        probability := 1, V := 0, G := 0, W := 0, K := 0, k := 0,
        orig_xstar := 0, orig_ustar := 0 } : iLQRNode 1 1).set_probability
          (-1)).probability < 0 := by
  norm_num [iLQRNode.set_probability]

/-- C6 amended: `set_probability` writes the given value into the
probability field unconditionally and leaves every other field unchanged;
no validation (normalization or non-negativity) is performed, so the
written vector satisfies the distribution invariant only when the caller's
values already do. -/
theorem set_probability_unconditional_write {n m : ℕ} (node : iLQRNode n m) (p : ℚ) :
    (node.set_probability p).probability = p ∧
    (node.set_probability p).V = node.V ∧
    (node.set_probability p).G = node.G ∧
    (node.set_probability p).W = node.W ∧
    (node.set_probability p).K = node.K ∧
    (node.set_probability p).k = node.k ∧
    (node.set_probability p).x = node.x ∧
    (node.set_probability p).u = node.u ∧
    (node.set_probability p).dynamics_func = node.dynamics_func ∧
    (node.set_probability p).cost_func = node.cost_func ∧
    (node.set_probability p).orig_xstar = node.orig_xstar ∧
    (node.set_probability p).orig_ustar = node.orig_ustar := by
  refine ⟨rfl, rfl, rfl, rfl, rfl, rfl, rfl, rfl, rfl, rfl, rfl, rfl⟩

/-- C1: the backup never completes — evaluation of `backup_to_parents`
at the failing input.  With `state_dim = 1` (parent with identity extended
dynamics, `R = [1]`, other terms zero; two children of probability one
half with successor values `I` and `0`), the very first per-child call of
`compute_value_matrix` trips the line-148 `IS_EQUAL(quadratic_term.cols(), 1)`
assertion (the term is 2×2, and line 144 just asserted its column count
equals `state_dim + 1 = 2`), so the probability-weighted accumulation the
claim describes is never formed.  And the slip is not the only blocker:
with `state_dim = 0`, where all four assertions pass, the accumulation
itself aborts on Eigen's dimension assertion, since line 110 sizes the
accumulator `state_dim × state_dim` against `(state_dim+1) × (state_dim+1)`
summands. -/
theorem backup_to_parents_aborts_at_failing_input :
    backup_to_parents_run (⟨1, 0, 0, 0, 1, 0, 0, 0, 0, 1⟩ : PlanNode 1 1)
        [((1 : ℚ) / 2, 1), ((1 : ℚ) / 2, 0)] =
      Except.error BackupAbort.isEqualFailed ∧
    backup_to_parents_run (⟨1, 0, 0, 0, 1, 0, 0, 0, 0, 1⟩ : PlanNode 0 1)
        [(1, 1)] = Except.error BackupAbort.sizeMismatch := by
  constructor
  · rfl
  · rfl

theorem borderAdd_transpose {n : ℕ} (L : Matrix (XH n) (Fin 1) ℚ)
    (c : Matrix (Fin 1) (Fin 1) ℚ) :
    (borderAdd L c).transpose = borderAdd L c := by
  ext i j
  rcases i with i | i <;> rcases j with j | j <;>
    simp [borderAdd, Matrix.transpose_apply, Matrix.fromBlocks_apply₁₁,
      Matrix.fromBlocks_apply₁₂, Matrix.fromBlocks_apply₂₁, Matrix.fromBlocks_apply₂₂]

theorem borderAdd_zero {n : ℕ} :
    borderAdd (0 : Matrix (XH n) (Fin 1) ℚ) 0 = 0 := by
  ext i j
  rcases i with i | i <;> rcases j with j | j <;>
    simp [borderAdd, Matrix.fromBlocks_apply₁₁, Matrix.fromBlocks_apply₁₂,
      Matrix.fromBlocks_apply₂₁, Matrix.fromBlocks_apply₂₂]

/-- Squared Frobenius norm, the exact-arithmetic carrier of the spec's
`‖·‖_F` bounds: `‖M‖_F ≤ c·‖N‖_F` with both sides non-negative is
equivalent to `sqFrobNorm M ≤ c² · sqFrobNorm N`. -/
def sqFrobNorm {a b : Type} [Fintype a] [Fintype b] (M : Matrix a b ℚ) : ℚ :=
  ∑ i, ∑ j, (M i j) ^ 2

/-- C5 amended: no symmetrization step (`V ← ½(V + Vᵀ)`) exists anywhere
in the source, and for every `state_dim ≥ 1` the value update never even
stores a matrix: `compute_value_matrix` throws on its own line-148
assertion.  On the assertion-stripped numeric core of the update
(`compute_value_matrix_core`, the matrix the function builds and would
return), given a symmetric cost Hessian and a symmetric successor value,
the output is symmetric exactly when the cross term `(P + AᵀV_{t+1}B)·K`
is symmetric — which for a generic gain matrix it is not, so the claimed
symmetry bound has no basis in the code. -/
theorem compute_value_matrix_symm_iff {n m : ℕ} (node : PlanNode (n + 1) m)
    (Vt1 : Matrix (XH (n + 1)) (XH (n + 1)) ℚ) (hQ : node.Q.transpose = node.Q)
    (hV : Vt1.transpose = Vt1) :
    compute_value_matrix node Vt1 = Except.error BackupAbort.isEqualFailed ∧
    ((compute_value_matrix_core node Vt1).transpose =
        compute_value_matrix_core node Vt1 ↔
      ((node.P + node.A.transpose * Vt1 * node.B) * node.K).transpose =
        (node.P + node.A.transpose * Vt1 * node.B) * node.K) := by
  constructor
  · rw [compute_value_matrix_eq]
    simp
  · have hM : (node.Q + node.A.transpose * Vt1 * node.A).transpose =
        node.Q + node.A.transpose * Vt1 * node.A := by
      simp [Matrix.transpose_add, Matrix.transpose_mul, hQ, hV, Matrix.mul_assoc]
    have hsplit : compute_value_matrix_core node Vt1 =
        node.Q + node.A.transpose * Vt1 * node.A +
          (node.P + node.A.transpose * Vt1 * node.B) * node.K +
          borderAdd ((node.P + node.A.transpose * Vt1 * node.B) * node.k)
            (node.b_u.transpose * node.k) := rfl
    rw [hsplit, Matrix.transpose_add, Matrix.transpose_add, hM, borderAdd_transpose,
      add_left_inj, add_right_inj]

/-- C5 amended witness: the characterization applied to the all-zero node
and successor at `state_dim = 1`, where both hypotheses hold by
computation. -/
theorem compute_value_matrix_symm_iff_witness :
    (((⟨0, 0, 0, 0, 0, 0, 0, 0, 0, 1⟩ : PlanNode 1 1).Q.transpose =
        (⟨0, 0, 0, 0, 0, 0, 0, 0, 0, 1⟩ : PlanNode 1 1).Q) ∧
      ((0 : Matrix (XH 1) (XH 1) ℚ).transpose = 0)) ∧
    (compute_value_matrix (⟨0, 0, 0, 0, 0, 0, 0, 0, 0, 1⟩ : PlanNode 1 1)
        (0 : Matrix (XH 1) (XH 1) ℚ) = Except.error BackupAbort.isEqualFailed ∧
      ((compute_value_matrix_core (⟨0, 0, 0, 0, 0, 0, 0, 0, 0, 1⟩ : PlanNode 1 1)
          (0 : Matrix (XH 1) (XH 1) ℚ)).transpose =
        compute_value_matrix_core (⟨0, 0, 0, 0, 0, 0, 0, 0, 0, 1⟩ : PlanNode 1 1)
          (0 : Matrix (XH 1) (XH 1) ℚ) ↔
        (((⟨0, 0, 0, 0, 0, 0, 0, 0, 0, 1⟩ : PlanNode 1 1).P +
            (⟨0, 0, 0, 0, 0, 0, 0, 0, 0, 1⟩ : PlanNode 1 1).A.transpose * 0 *
              (⟨0, 0, 0, 0, 0, 0, 0, 0, 0, 1⟩ : PlanNode 1 1).B) *
            (⟨0, 0, 0, 0, 0, 0, 0, 0, 0, 1⟩ : PlanNode 1 1).K).transpose =
          ((⟨0, 0, 0, 0, 0, 0, 0, 0, 0, 1⟩ : PlanNode 1 1).P +
            (⟨0, 0, 0, 0, 0, 0, 0, 0, 0, 1⟩ : PlanNode 1 1).A.transpose * 0 *
              (⟨0, 0, 0, 0, 0, 0, 0, 0, 0, 1⟩ : PlanNode 1 1).B) *
            (⟨0, 0, 0, 0, 0, 0, 0, 0, 0, 1⟩ : PlanNode 1 1).K)) :=
  ⟨⟨by simp, by simp⟩,
    compute_value_matrix_symm_iff _ _ (by simp) (by simp)⟩

/-- The concrete node of the C5 counterexample: identity dynamics `A`,
input matrix `B = [1; 0]` on the extended state, gain `K = [0, 1]` acting
on the constant coordinate, zero cost terms, unit probability. -/
def c5node : PlanNode 1 1 :=
  ⟨1, Matrix.of fun i _ => if i = Sum.inl 0 then 1 else 0, 0, 0, 0, 0,
    Matrix.of fun _ j => if j = Sum.inr () then 1 else 0, 0, 0, 1⟩

/-- C5 counterexample: at `c5node` with identity successor value the
value update stores nothing at all — `compute_value_matrix` throws on its
line-148 assertion, where the claim requires a symmetrized matrix to be
stored — and the matrix the update builds (its numeric core) violates the
claimed bound `‖V − Vᵀ‖_F ≤ 10⁻⁸·‖V‖_F` (in squared form, both sides
being non-negative): `sqFrobNorm (V − Vᵀ) = 2` while
`(10⁻⁸)²·sqFrobNorm V = 3·10⁻¹⁶`. -/
theorem compute_value_matrix_violates_symmetry_bound :
    compute_value_matrix c5node (1 : Matrix (XH 1) (XH 1) ℚ) =
      Except.error BackupAbort.isEqualFailed ∧
    ((1 : ℚ) / 10 ^ 8) ^ 2 *
        sqFrobNorm (compute_value_matrix_core c5node (1 : Matrix (XH 1) (XH 1) ℚ)) <
      sqFrobNorm (compute_value_matrix_core c5node (1 : Matrix (XH 1) (XH 1) ℚ) -
        (compute_value_matrix_core c5node (1 : Matrix (XH 1) (XH 1) ℚ)).transpose) := by
  constructor
  · rfl
  · have h1 : compute_value_matrix_core c5node (1 : Matrix (XH 1) (XH 1) ℚ) =
        1 + c5node.B * c5node.K := by
      simp [compute_value_matrix_core, c5node, Matrix.transpose_one, Matrix.one_mul,
        Matrix.mul_one, Matrix.mul_zero, borderAdd_zero]
    rw [h1]
    have hBK : ∀ i j, (c5node.B * c5node.K) i j =
        if i = Sum.inl 0 ∧ j = Sum.inr () then (1 : ℚ) else 0 := by
      intro i j
      rcases i with i | i <;> rcases j with j | j <;>
        simp [Matrix.mul_apply, c5node, Fin.sum_univ_one]
    have h2 : sqFrobNorm ((1 : Matrix (XH 1) (XH 1) ℚ) + c5node.B * c5node.K) = 3 := by
      simp only [sqFrobNorm, Fintype.sum_sum_type, Fin.sum_univ_one,
        Finset.univ_unique, Finset.sum_singleton, Matrix.add_apply, hBK,
        Matrix.one_apply, reduceIte]
      simp
      norm_num
    have h3 : sqFrobNorm ((1 : Matrix (XH 1) (XH 1) ℚ) + c5node.B * c5node.K -
        ((1 : Matrix (XH 1) (XH 1) ℚ) + c5node.B * c5node.K).transpose) = 2 := by
      simp only [sqFrobNorm, Fintype.sum_sum_type, Fin.sum_univ_one,
        Finset.univ_unique, Finset.sum_singleton, Matrix.sub_apply, Matrix.add_apply,
        Matrix.transpose_apply, hBK, Matrix.one_apply, reduceIte]
      simp
      norm_num
    rw [h2, h3]
    norm_num

/-- Reduction of the extended-state quadratic form: with a zero bottom row
on the extended input matrix, the `G` and `W` parts of the homogeneous
successor value drop out of `Bᵀ V_{t+1} B`. -/
theorem extendB_homog_extendB {n m : ℕ} (Bp : Matrix (Fin n) (Fin m) ℚ)
    (V : Matrix (Fin n) (Fin n) ℚ) (G : Matrix (Fin 1) (Fin n) ℚ) (W : ℚ) :
    (extendB Bp).transpose * homogValue V G W * extendB Bp =
      Bp.transpose * V * Bp := by
  ext i j
  simp [Matrix.mul_apply, Fintype.sum_sum_type, extendB, homogValue,
    Matrix.fromBlocks_apply₁₁, Matrix.fromBlocks_apply₁₂,
    Matrix.fromBlocks_apply₂₁, Matrix.fromBlocks_apply₂₂,
    Matrix.transpose_apply, Finset.sum_mul, Finset.mul_sum]

/-- C2 amended: for a node whose extended input matrix has the canonical
zero bottom row and whose successor value is the homogeneous form of
`(V_{t+1}, G_{t+1}, W_{t+1})`, the computed gains are
`K = −(R + BᵀV_{t+1}B)⁻¹ (Pᵀ + BᵀṼ_{t+1}A)` over the extended state — as
the claim states — while the feed-forward is
`k = −(R + BᵀV_{t+1}B)⁻¹ b_u`: it contains no `BᵀG_{t+1}ᵀ` term, and `k`
is entirely independent of `G_{t+1}` and `W_{t+1}` (the successor linear
value reaches the policy only through the extended-state columns of `K`). -/
theorem compute_control_policy_formulas {n m : ℕ} (node : PlanNode n m)
    (Bp : Matrix (Fin n) (Fin m) ℚ) (V : Matrix (Fin n) (Fin n) ℚ)
    (G : Matrix (Fin 1) (Fin n) ℚ) (W : ℚ) (hB : node.B = extendB Bp) :
    (compute_control_policy node (homogValue V G W)).1 =
      (-1 : ℚ) • (qInv (node.R + Bp.transpose * V * Bp) *
        (node.P.transpose +
          node.B.transpose * homogValue V G W * node.A)) ∧
    (compute_control_policy node (homogValue V G W)).2 =
      (-1 : ℚ) • (qInv (node.R + Bp.transpose * V * Bp) * node.b_u) := by
  constructor <;>
    simp only [compute_control_policy, hB, extendB_homog_extendB]

/-- C2 amended witness: the gains formula applied to a concrete node whose
extended input matrix is `extendB !![1]`. -/
theorem compute_control_policy_formulas_witness :
    ((⟨1, extendB !![(1 : ℚ)], 0, 0, !![(1 : ℚ)], !![(1 : ℚ)], 0, 0, 0, 1⟩ :
        PlanNode 1 1).B = extendB !![(1 : ℚ)]) ∧
    ((compute_control_policy
        (⟨1, extendB !![(1 : ℚ)], 0, 0, !![(1 : ℚ)], !![(1 : ℚ)], 0, 0, 0, 1⟩ :
          PlanNode 1 1) (homogValue !![(1 : ℚ)] !![(1 : ℚ)] 0)).1 =
      (-1 : ℚ) • (qInv ((⟨1, extendB !![(1 : ℚ)], 0, 0, !![(1 : ℚ)], !![(1 : ℚ)], 0, 0, 0, 1⟩ :
          PlanNode 1 1).R + (!![(1 : ℚ)]).transpose * !![(1 : ℚ)] * !![(1 : ℚ)]) *
        ((⟨1, extendB !![(1 : ℚ)], 0, 0, !![(1 : ℚ)], !![(1 : ℚ)], 0, 0, 0, 1⟩ :
          PlanNode 1 1).P.transpose +
          (⟨1, extendB !![(1 : ℚ)], 0, 0, !![(1 : ℚ)], !![(1 : ℚ)], 0, 0, 0, 1⟩ :
          PlanNode 1 1).B.transpose * homogValue !![(1 : ℚ)] !![(1 : ℚ)] 0 *
          (⟨1, extendB !![(1 : ℚ)], 0, 0, !![(1 : ℚ)], !![(1 : ℚ)], 0, 0, 0, 1⟩ :
          PlanNode 1 1).A)) ∧
    (compute_control_policy
        (⟨1, extendB !![(1 : ℚ)], 0, 0, !![(1 : ℚ)], !![(1 : ℚ)], 0, 0, 0, 1⟩ :
          PlanNode 1 1) (homogValue !![(1 : ℚ)] !![(1 : ℚ)] 0)).2 =
      (-1 : ℚ) • (qInv ((⟨1, extendB !![(1 : ℚ)], 0, 0, !![(1 : ℚ)], !![(1 : ℚ)], 0, 0, 0, 1⟩ :
          PlanNode 1 1).R + (!![(1 : ℚ)]).transpose * !![(1 : ℚ)] * !![(1 : ℚ)]) *
        (⟨1, extendB !![(1 : ℚ)], 0, 0, !![(1 : ℚ)], !![(1 : ℚ)], 0, 0, 0, 1⟩ :
          PlanNode 1 1).b_u)) :=
  ⟨rfl, compute_control_policy_formulas _ _ _ _ _ rfl⟩

/-- The concrete node of the C2 counterexample: `R = [1]`, `b_u = [1]`,
extended input matrix `extendB [1]`, everything else immaterial to `k`. -/
def c2node : PlanNode 1 1 :=
  ⟨1, extendB !![(1 : ℚ)], 0, 0, !![(1 : ℚ)], !![(1 : ℚ)], 0, 0, 0, 1⟩

/-- C2 counterexample: at `c2node` with successor value
`(V, G, W) = ([1], [1], 0)` the code's feed-forward is
`k = −(R + BᵀVB)⁻¹ b_u = [−1/2]`, whereas the claimed formula
`k = −(R + BᵀVB)⁻¹ (b_u + BᵀG_{t+1}ᵀ)` gives `[−1]`: the successor
linear-value contribution `BᵀG_{t+1}ᵀ` is absent from the code. -/
theorem compute_control_policy_k_omits_G_term :
    (compute_control_policy c2node (homogValue !![(1 : ℚ)] !![(1 : ℚ)] 0)).2 ≠
      (-1 : ℚ) • (qInv (c2node.R +
          c2node.B.transpose * homogValue !![(1 : ℚ)] !![(1 : ℚ)] 0 * c2node.B) *
        (c2node.b_u + (!![(1 : ℚ)]).transpose * (!![(1 : ℚ)]).transpose)) := by
  have hQuu : c2node.R +
      c2node.B.transpose * homogValue !![(1 : ℚ)] !![(1 : ℚ)] 0 * c2node.B =
        !![(2 : ℚ)] := by
    rw [show c2node.B = extendB !![(1 : ℚ)] from rfl, extendB_homog_extendB]
    ext i j
    fin_cases i
    fin_cases j
    simp [c2node, Matrix.mul_apply, Fin.sum_univ_one]
    norm_num
  have hq : qInv !![(2 : ℚ)] = !![(2 : ℚ)⁻¹] := by
    rw [qInv_fin_one]
    ext i j
    fin_cases i
    fin_cases j
    simp
  have hbG : c2node.b_u + (!![(1 : ℚ)]).transpose * (!![(1 : ℚ)]).transpose =
      !![(2 : ℚ)] := by
    ext i j
    fin_cases i
    fin_cases j
    simp [c2node, Matrix.mul_apply, Fin.sum_univ_one]
    norm_num
  intro h
  have he := congrFun (congrFun h 0) 0
  rw [show (compute_control_policy c2node
        (homogValue !![(1 : ℚ)] !![(1 : ℚ)] 0)).2 =
      (-1 : ℚ) • (qInv (c2node.R +
        c2node.B.transpose * homogValue !![(1 : ℚ)] !![(1 : ℚ)] 0 * c2node.B) *
        c2node.b_u) from rfl, hQuu, hq, hbG,
    show c2node.b_u = !![(1 : ℚ)] from rfl] at he
  simp [Matrix.smul_apply, Matrix.mul_apply, Fin.sum_univ_one] at he

theorem extendB_one_quadform :
    (extendB !![(1 : ℚ)]).transpose * (1 : Matrix (XH 1) (XH 1) ℚ) *
      extendB !![(1 : ℚ)] = !![(1 : ℚ)] := by
  rw [Matrix.mul_one]
  ext i j
  fin_cases i
  fin_cases j
  simp [extendB, Matrix.mul_apply, Fintype.sum_sum_type, Matrix.transpose_apply]

/-- The concrete node of the C3 counterexample: `R = [−2]` makes
`Q_uu = R + BᵀV_{t+1}B = [−1]` indefinite. -/
def c3node : PlanNode 1 1 :=
  ⟨1, extendB !![(1 : ℚ)], 0, 0, !![(-2 : ℚ)], !![(1 : ℚ)], 0, 0, 0, 1⟩

/-- C3 counterexample: at `c3node` with identity successor value,
`Q_uu = [−1]` is not positive definite, so the Cholesky factorization of
the spec's control solve fails with `NonPSDControlHessian`; the code's
`compute_control_policy`, which has no factorization, no damping term and
no failure branch, still returns the definite feed-forward `k = [1]`
(through `(−1)·(−1)⁻¹·1`).  The claim's "either the Cholesky succeeds or
the `NonPSDControlHessian` branch is taken" therefore fails on this
input. -/
theorem cholesky_fails_but_code_computes :
    cholesky_control_gains 0 c3node (1 : Matrix (XH 1) (XH 1) ℚ) =
      Except.error ControlHessianError.nonPSDControlHessian ∧
    (compute_control_policy c3node (1 : Matrix (XH 1) (XH 1) ℚ)).2 =
      !![(1 : ℚ)] := by
  have hQuu : c3node.R + c3node.B.transpose * (1 : Matrix (XH 1) (XH 1) ℚ) *
      c3node.B = !![(-1 : ℚ)] := by
    rw [show c3node.B = extendB !![(1 : ℚ)] from rfl, extendB_one_quadform]
    ext i j
    fin_cases i
    fin_cases j
    simp [c3node]
    norm_num
  have hnpd : ¬ leadingMinorsPos !![(-1 : ℚ)] := by
    intro hpd
    have h0 := hpd 0
    simp [Matrix.det_fin_one, Matrix.submatrix_apply] at h0
    norm_num at h0
  constructor
  · rw [show cholesky_control_gains 0 c3node (1 : Matrix (XH 1) (XH 1) ℚ) =
        (if leadingMinorsPos (c3node.R + c3node.B.transpose *
            (1 : Matrix (XH 1) (XH 1) ℚ) * c3node.B + (0 : ℚ) • 1) then
          Except.ok ((-1 : ℚ) • (qInv (c3node.R + c3node.B.transpose *
              (1 : Matrix (XH 1) (XH 1) ℚ) * c3node.B + (0 : ℚ) • 1) *
            (c3node.P.transpose + c3node.B.transpose *
              (1 : Matrix (XH 1) (XH 1) ℚ) * c3node.A)),
            (-1 : ℚ) • (qInv (c3node.R + c3node.B.transpose *
              (1 : Matrix (XH 1) (XH 1) ℚ) * c3node.B + (0 : ℚ) • 1) * c3node.b_u))
        else Except.error ControlHessianError.nonPSDControlHessian)
        from rfl]
    rw [zero_smul, add_zero, hQuu, if_neg hnpd]
  · rw [show (compute_control_policy c3node (1 : Matrix (XH 1) (XH 1) ℚ)).2 =
        (-1 : ℚ) • (qInv (c3node.R + c3node.B.transpose *
          (1 : Matrix (XH 1) (XH 1) ℚ) * c3node.B) * c3node.b_u) from rfl,
      hQuu, qInv_fin_one]
    ext i j
    fin_cases i
    fin_cases j
    simp [c3node]

/-- C3 amended: `compute_control_policy` computes the gains by a direct
matrix inverse of `Q_uu = R + BᵀV_{t+1}B` — no damping term, no Cholesky
factorization, and no failure branch exist in the source.  Whenever
`Q_uu` is invertible the returned gains solve the normal equations
`Q_uu·K = −(Pᵀ + BᵀV_{t+1}A)` and `Q_uu·k = −b_u`; positive definiteness
is never checked and no `NonPSDControlHessian` is ever raised. -/
theorem compute_control_policy_solves_normal_equations {n m : ℕ}
    (node : PlanNode n m) (Vt1 : Matrix (XH n) (XH n) ℚ)
    (hdet : (node.R + node.B.transpose * Vt1 * node.B).det ≠ 0) :
    (node.R + node.B.transpose * Vt1 * node.B) *
        (compute_control_policy node Vt1).1 =
      (-1 : ℚ) • (node.P.transpose + node.B.transpose * Vt1 * node.A) ∧
    (node.R + node.B.transpose * Vt1 * node.B) *
        (compute_control_policy node Vt1).2 =
      (-1 : ℚ) • node.b_u := by
  have hu : IsUnit (node.R + node.B.transpose * Vt1 * node.B).det :=
    isUnit_iff_ne_zero.mpr hdet
  constructor
  · rw [show (compute_control_policy node Vt1).1 =
        (-1 : ℚ) • (qInv (node.R + node.B.transpose * Vt1 * node.B) *
          (node.P.transpose + node.B.transpose * Vt1 * node.A)) from rfl,
      Matrix.mul_smul, ← Matrix.mul_assoc, qInv_eq_inv,
      Matrix.mul_nonsing_inv _ hu, Matrix.one_mul]
  · rw [show (compute_control_policy node Vt1).2 =
        (-1 : ℚ) • (qInv (node.R + node.B.transpose * Vt1 * node.B) *
          node.b_u) from rfl,
      Matrix.mul_smul, ← Matrix.mul_assoc, qInv_eq_inv,
      Matrix.mul_nonsing_inv _ hu, Matrix.one_mul]

/-- C3 amended witness: the normal-equations property applied at `c2node`
with identity successor value, where `Q_uu = [2]` is invertible. -/
theorem compute_control_policy_solves_normal_equations_witness :
    ((c2node.R + c2node.B.transpose * (1 : Matrix (XH 1) (XH 1) ℚ) *
        c2node.B).det ≠ 0) ∧
    ((c2node.R + c2node.B.transpose * (1 : Matrix (XH 1) (XH 1) ℚ) * c2node.B) *
        (compute_control_policy c2node (1 : Matrix (XH 1) (XH 1) ℚ)).1 =
      (-1 : ℚ) • (c2node.P.transpose + c2node.B.transpose *
        (1 : Matrix (XH 1) (XH 1) ℚ) * c2node.A) ∧
    (c2node.R + c2node.B.transpose * (1 : Matrix (XH 1) (XH 1) ℚ) * c2node.B) *
        (compute_control_policy c2node (1 : Matrix (XH 1) (XH 1) ℚ)).2 =
      (-1 : ℚ) • c2node.b_u) := by
  have hQuu : c2node.R + c2node.B.transpose * (1 : Matrix (XH 1) (XH 1) ℚ) *
      c2node.B = !![(2 : ℚ)] := by
    rw [show c2node.B = extendB !![(1 : ℚ)] from rfl, extendB_one_quadform]
    ext i j
    fin_cases i
    fin_cases j
    simp [c2node]
    norm_num
  have hdet : (c2node.R + c2node.B.transpose * (1 : Matrix (XH 1) (XH 1) ℚ) *
      c2node.B).det ≠ 0 := by
    rw [hQuu, Matrix.det_fin_one]
    norm_num
  exact ⟨hdet, compute_control_policy_solves_normal_equations _ _ hdet⟩

/-- The concrete one-timestep branch used by the C7 witness. -/
def c7branch : HindsightBranch 1 1 :=
  ⟨[!![(2 : ℚ)]], [fun _ => 1], [fun _ => 0], [fun _ => 3]⟩

/-- C7: for every branch, state, in-range timestep and step size
`α ∈ (0, 1]`, the computed control is
`û_t + α·k_t + K_t(x − x̂_t)` over the gains of the last backward sweep
and the branch's nominal expansion points, and at `α = 1` it coincides
with the regular feedback law. -/
theorem compute_control_stepsize_law {n m : ℕ} (br : HindsightBranch n m)
    (xt : Fin n → ℚ) (t : ℕ) (alpha : ℚ) (halpha0 : 0 < alpha)
    (halpha1 : alpha ≤ 1) (ht1 : t < br.uhat.length) (ht2 : t < br.ks.length)
    (ht3 : t < br.Ks.length) (ht4 : t < br.xhat.length) :
    compute_control_stepsize br xt t alpha =
      br.uhat.get ⟨t, ht1⟩ + alpha • br.ks.get ⟨t, ht2⟩ +
        (br.Ks.get ⟨t, ht3⟩).mulVec (xt - br.xhat.get ⟨t, ht4⟩) ∧
    compute_control_stepsize br xt t 1 = compute_control_regular br xt t := by
  constructor
  · rw [compute_control_stepsize, List.getD_eq_get _ _ ht1,
      List.getD_eq_get _ _ ht2, List.getD_eq_get _ _ ht3,
      List.getD_eq_get _ _ ht4]
  · rw [compute_control_stepsize, compute_control_regular, one_smul]

/-- C7 witness: the feedback law evaluated on the one-timestep branch
`c7branch` at `t = 0`, `α = 1/2`. -/
theorem compute_control_stepsize_law_witness :
    ((0 : ℚ) < 1 / 2 ∧ (1 / 2 : ℚ) ≤ 1 ∧ 0 < c7branch.uhat.length ∧
      0 < c7branch.ks.length ∧ 0 < c7branch.Ks.length ∧
      0 < c7branch.xhat.length) ∧
    (compute_control_stepsize c7branch (fun _ => 1) 0 (1 / 2) =
      c7branch.uhat.get ⟨0, by simp [c7branch]⟩ +
        (1 / 2 : ℚ) • c7branch.ks.get ⟨0, by simp [c7branch]⟩ +
        (c7branch.Ks.get ⟨0, by simp [c7branch]⟩).mulVec
          ((fun _ => 1) - c7branch.xhat.get ⟨0, by simp [c7branch]⟩) ∧
    compute_control_stepsize c7branch (fun _ => 1) 0 1 =
      compute_control_regular c7branch (fun _ => 1) 0) :=
  ⟨⟨by norm_num, by norm_num, by simp [c7branch], by simp [c7branch],
      by simp [c7branch], by simp [c7branch]⟩,
    compute_control_stepsize_law c7branch (fun _ => 1) 0 (1 / 2)
      (by norm_num) (by norm_num) (by simp [c7branch]) (by simp [c7branch])
      (by simp [c7branch]) (by simp [c7branch])⟩

theorem lineSearchFirst_sound (c : ℚ → ℚ) (J : ℚ) :
    ∀ (l : List ℚ) (a : ℚ), lineSearchFirst c J l = some a → a ∈ l ∧ c a < J := by
  intro l
  induction l with
  | nil =>
      intro a h
      simp [lineSearchFirst] at h
  | cons b bs ih =>
      intro a h
      rw [lineSearchFirst] at h
      by_cases hb : c b < J
      · rw [if_pos hb] at h
        obtain rfl : b = a := Option.some.inj h
        exact ⟨List.mem_cons_self _ _, hb⟩
      · rw [if_neg hb] at h
        obtain ⟨hmem, hlt⟩ := ih a h
        exact ⟨List.mem_cons_of_mem _ hmem, hlt⟩

/-- Every step size of the schedule is at least `α_min = 2⁻¹⁰ = 1/1024`:
the halving count stops exactly before the schedule would drop below it. -/
theorem alphaSeq_mem_lower (a0 a : ℚ) (ha : a ∈ alphaSeq a0) : 1 / 1024 ≤ a := by
  rw [alphaSeq] at ha
  obtain ⟨i, hirange, rfl⟩ := List.mem_map.mp ha
  rw [List.mem_range, numHalvings] at hirange
  have hnot := Nat.find_min (exists_two_pow_gt (1024 * a0)) hirange
  push_neg at hnot
  have h2 : (0 : ℚ) < 2 ^ i := by positivity
  rw [div_le_div_iff (by norm_num) h2]
  linarith [hnot]

theorem dampedRetryLoop_reaches_outcome (candidateCost : ℚ → ℚ → ℚ)
    (Jbar a0 : ℚ) :
    ∀ (j : ℕ) (mu : ℚ), 0 ≤ mu → 1000000 < mu * 10 ^ j →
      ∃ out, dampedRetryLoop candidateCost Jbar a0 (j + 1) mu = some out ∧
        GoodOutcome candidateCost Jbar a0 out := by
  intro j
  induction j with
  | zero =>
      intro mu hmu hbig
      rw [pow_zero, mul_one] at hbig
      cases hls : lineSearchFirst (candidateCost mu) Jbar (alphaSeq a0) with
      | some a =>
          refine ⟨LineSearchOutcome.accepted mu a, ?_, ?_⟩
          · rw [dampedRetryLoop]
            simp [hls]
          · left
            obtain ⟨hmem, hlt⟩ := lineSearchFirst_sound _ _ _ _ hls
            exact ⟨mu, a, rfl, hmem, hlt, alphaSeq_mem_lower _ _ hmem⟩
      | none =>
          have hmupos : (0 : ℚ) < mu := lt_trans (by norm_num) hbig
          have hesc : escalateMu mu = 10 * mu := by
            rw [escalateMu, if_neg (ne_of_gt hmupos)]
          have hcond : 1000000 < escalateMu mu := by
            rw [hesc]
            linarith
          refine ⟨LineSearchOutcome.stuckAtLocalMin (escalateMu mu), ?_, ?_⟩
          · rw [dampedRetryLoop]
            simp [hls, hcond]
          · right
            exact ⟨escalateMu mu, rfl, hcond⟩
  | succ j ih =>
      intro mu hmu hbig
      cases hls : lineSearchFirst (candidateCost mu) Jbar (alphaSeq a0) with
      | some a =>
          refine ⟨LineSearchOutcome.accepted mu a, ?_, ?_⟩
          · rw [dampedRetryLoop]
            simp [hls]
          · left
            obtain ⟨hmem, hlt⟩ := lineSearchFirst_sound _ _ _ _ hls
            exact ⟨mu, a, rfl, hmem, hlt, alphaSeq_mem_lower _ _ hmem⟩
      | none =>
          by_cases hcond : 1000000 < escalateMu mu
          · refine ⟨LineSearchOutcome.stuckAtLocalMin (escalateMu mu), ?_, ?_⟩
            · rw [dampedRetryLoop]
              simp [hls, hcond]
            · right
              exact ⟨escalateMu mu, rfl, hcond⟩
          · have hmu2pos : (0 : ℚ) ≤ escalateMu mu := by
              rw [escalateMu]
              split_ifs
              · norm_num
              · linarith
            have hmu2big : 1000000 < escalateMu mu * 10 ^ j := by
              rw [escalateMu]
              split_ifs with h0
              · rw [h0] at hbig
                norm_num at hbig
              · rw [pow_succ] at hbig
                nlinarith [hbig]
            obtain ⟨out, hout, hgood⟩ := ih (escalateMu mu) hmu2pos hmu2big
            refine ⟨out, ?_, hgood⟩
            rw [dampedRetryLoop]
            simp only [hls]
            rw [if_neg hcond]
            exact hout

/-- C8: the line-search/damping loop terminates for every (total, hence
finite-cost) candidate-cost closure and every starting damping `μ ≥ 0`:
some finite fuel reaches a terminal outcome, and that outcome either
accepts a schedule step size `α ≥ 2⁻¹⁰` whose candidate expected cost is
strictly below the current cost, or — after the escalation `μ ← 10μ`
(`μ ← 10⁻⁶` from 0) pushes the damping beyond `10⁶` — stops at
`StuckAtLocalMin`; the loop never runs forever. -/
theorem line_search_damping_terminates (candidateCost : ℚ → ℚ → ℚ)
    (Jbar a0 mu : ℚ) (hmu : 0 ≤ mu) :
    ∃ (fuel : ℕ) (out : LineSearchOutcome),
      dampedRetryLoop candidateCost Jbar a0 fuel mu = some out ∧
        GoodOutcome candidateCost Jbar a0 out := by
  rcases eq_or_lt_of_le hmu with heq | hpos
  · have hmu0 : mu = 0 := heq.symm
    subst hmu0
    cases hls : lineSearchFirst (candidateCost 0) Jbar (alphaSeq a0) with
    | some a =>
        refine ⟨1, LineSearchOutcome.accepted 0 a, ?_, ?_⟩
        · rw [dampedRetryLoop]
          simp [hls]
        · left
          obtain ⟨hmem, hlt⟩ := lineSearchFirst_sound _ _ _ _ hls
          exact ⟨0, a, rfl, hmem, hlt, alphaSeq_mem_lower _ _ hmem⟩
    | none =>
        have hesc : escalateMu 0 = 1 / 1000000 := by
          rw [escalateMu, if_pos rfl]
        have hnot : ¬ (1000000 : ℚ) < escalateMu 0 := by
          rw [hesc]
          norm_num
        obtain ⟨out, hout, hgood⟩ :=
          dampedRetryLoop_reaches_outcome candidateCost Jbar a0 13 (escalateMu 0)
            (by rw [hesc]; norm_num) (by rw [hesc]; norm_num)
        refine ⟨15, out, ?_, hgood⟩
        rw [dampedRetryLoop]
        simp only [hls]
        rw [if_neg hnot]
        exact hout
  · obtain ⟨j, hj⟩ :=
      pow_unbounded_of_one_lt ((1000000 : ℚ) / mu) (by norm_num : (1 : ℚ) < 10)
    have hbig : 1000000 < mu * 10 ^ j := by
      rw [div_lt_iff hpos] at hj
      linarith [hj]
    obtain ⟨out, hout, hgood⟩ :=
      dampedRetryLoop_reaches_outcome candidateCost Jbar a0 j mu hmu hbig
    exact ⟨j + 1, out, hout, hgood⟩

/-- C8 witness: termination of the loop from `μ = 0` with unit initial
step size on the all-zero candidate cost against current cost 1. -/
theorem line_search_damping_terminates_witness :
    (0 : ℚ) ≤ 0 ∧
    ∃ (fuel : ℕ) (out : LineSearchOutcome),
      dampedRetryLoop (fun _ _ => 0) 1 1 fuel 0 = some out ∧
        GoodOutcome (fun _ _ => 0) 1 1 out :=
  ⟨le_refl 0, line_search_damping_terminates (fun _ _ => 0) 1 1 0 (le_refl 0)⟩
